import Mathlib

/-!
Verification of the picklist generation system
(`generate_picklists.py` and `evaluation.py`).

The packer is embedded shallowly: weights are exact rationals, quantities
are integers, the per-item `while remaining > 0` loop is given explicit
fuel so that non-termination of the Python loop shows up as the outcome
`noFuel` for every fuel value, and the `assert` in the loop body is the
outcome `assertFail`.  File names embed the run date, so the whole run is
parametrised by a `today` string standing for `datetime.now().date()`.
-/

namespace Swiggy

/-- `PICKLIST_UNIT_CAP = 2000` from the CONFIG block. -/
def PICKLIST_UNIT_CAP : Int := 2000

/-- `PICKLIST_WEIGHT_CAP = 200.0` kg from the CONFIG block. -/
def PICKLIST_WEIGHT_CAP : ℚ := 200

/-- `FRAGILE_WEIGHT_CAP = 50.0` kg from the CONFIG block. -/
def FRAGILE_WEIGHT_CAP : ℚ := 50

/-- The absolute tolerance `1e-6` used by the assert in `process_zone`. -/
def TOL : ℚ := 1 / 1000000

/-- A normalized input record (one row of the working dataframe):
fields `_order`, `_store`, `_sku`, `_qty`, `_zone`, `_bin`, `_binrank`,
`_priority`, `_weight` (kg), `_fragile`, `_cutoff`. -/
structure ItemLine where
  order_id : String
  store_id : String
  sku : String
  qty : Int
  zone : String
  bin : String
  bin_rank : String
  priority : Int
  weight : ℚ
  fragile : Bool
  cutoff : Int
deriving DecidableEq

/-- One row appended to `items` in `process_zone` (a pick line of one
picklist file). -/
structure PickLine where
  sku : String
  order_id : String
  store : String
  bin : String
  bin_rank : String
  qty : Int
  unit_weight : ℚ
  fragile : Bool
deriving DecidableEq

/-- One row appended to `summary` by `flush`. -/
structure SummaryRow where
  picklist_file : String
  zone : String
  picklist_no : Nat
  picklist_type : String
  total_units : Int
  total_weight : ℚ
  distinct_orders : Nat
  distinct_bins : Nat
deriving DecidableEq

/-- The mutable state of `process_zone`: the open bin
(`cur_units`, `cur_weight`, `items`, `orders`, `bins`, `pl_no`) together
with the accumulators shared across zones (`files` holds each emitted
picklist file as its name and its list of pick lines, `summary` holds
the emitted summary rows).  The Python sets `orders` and `bins` are
used only through `len(...)`; they are modelled as the list of values
registered into them, with cardinality taken via `dedup.length`. -/
structure ZoneState where
  cur_units : Int
  cur_weight : ℚ
  items : List PickLine
  orders : List String
  bins : List String
  pl_no : Nat
  files : List (String × List PickLine)
  summary : List SummaryRow
deriving DecidableEq

/-- Outcome of running a fuelled loop: normal completion, the `assert`
in the loop body firing, or fuel exhaustion (the Python loop would still
be running). -/
inductive PackOutcome where
  | ok : ZoneState → PackOutcome
  | assertFail : PackOutcome
  | noFuel : PackOutcome
deriving DecidableEq

/-- Outcome of a whole `generate_picklists` run. -/
inductive RunOutcome where
  | ok : List (String × List PickLine) → List SummaryRow → RunOutcome
  | assertFail : RunOutcome
  | noFuel : RunOutcome
deriving DecidableEq

/-- The weight cap chosen at the top of `process_zone`:
`FRAGILE_WEIGHT_CAP if fragile else PICKLIST_WEIGHT_CAP`. -/
def capW (fragile : Bool) : ℚ :=
  if fragile then FRAGILE_WEIGHT_CAP else PICKLIST_WEIGHT_CAP

/-- `f"{datetime.now().date()}_ZONE_{zone}_PL{pl_no}.csv"` with the date
passed in as `today`. -/
def fname (today zone : String) (n : Nat) : String :=
  today ++ "_ZONE_" ++ zone ++ "_PL" ++ toString n ++ ".csv"

/-- The dict appended to `items` in the loop body of `process_zone`. -/
def mkLine (row : ItemLine) (tk : Int) : PickLine :=
  { sku := row.sku
    order_id := row.order_id
    store := row.store_id
    bin := row.bin
    bin_rank := row.bin_rank
    qty := tk
    unit_weight := row.weight
    fragile := row.fragile }

/-- The inner `flush()` of `process_zone`: an empty bin is discarded;
otherwise the bin is written out as a file, one summary row is appended,
and the bin state is reset. -/
def flush (today zone : String) (fragile : Bool) (s : ZoneState) : ZoneState :=
  if s.items = [] then s
  else
    let n := s.pl_no + 1
    let f := fname today zone n
    { cur_units := 0
      cur_weight := 0
      items := []
      orders := []
      bins := []
      pl_no := n
      files := s.files ++ [(f, s.items)]
      summary := s.summary ++ [{
        picklist_file := f
        zone := zone
        picklist_no := n
        picklist_type := if fragile then "fragile" else "normal"
        total_units := s.cur_units
        total_weight := s.cur_weight
        distinct_orders := s.orders.dedup.length
        distinct_bins := s.bins.dedup.length }] }

/-- `available_units = cap_units - cur_units`. -/
def availU (s : ZoneState) : Int := PICKLIST_UNIT_CAP - s.cur_units

/-- `available_weight = cap_weight - cur_weight`. -/
def availW (fragile : Bool) (s : ZoneState) : ℚ := capW fragile - s.cur_weight

/-- `max_by_weight = int(available_weight / unit_wt) if unit_wt > 0 else
remaining` (in the reachable branch `available_weight > 0`, so Python's
truncating `int` is the floor). -/
def maxBW (fragile : Bool) (row : ItemLine) (remaining : Int) (s : ZoneState) : Int :=
  if 0 < row.weight then (availW fragile s / row.weight).floor else remaining

/-- `take = min(remaining, available_units, max_by_weight)`. -/
def takeOf (fragile : Bool) (row : ItemLine) (remaining : Int) (s : ZoneState) : Int :=
  min (min remaining (availU s)) (maxBW fragile row remaining s)

/-- The loop body's mutations once a positive `take` is found: append
the pick line, bump the counters, register order and bin. -/
def stepState (row : ItemLine) (tk : Int) (s : ZoneState) : ZoneState :=
  { s with
    items := s.items ++ [mkLine row tk]
    cur_units := s.cur_units + tk
    cur_weight := s.cur_weight + tk * row.weight
    orders := s.orders ++ [row.order_id]
    bins := s.bins ++ [row.bin] }

/-- The `while remaining > 0` loop of `process_zone` for one row, with
explicit fuel (one unit per iteration of the Python loop). -/
def packRowLoop (today zone : String) (fragile : Bool) (row : ItemLine) :
    Nat → Int → ZoneState → PackOutcome
  | 0, remaining, s => if 0 < remaining then .noFuel else .ok s
  | fuel + 1, remaining, s =>
    if 0 < remaining then
      if availU s ≤ 0 ∨ availW fragile s ≤ 0 then
        packRowLoop today zone fragile row fuel remaining (flush today zone fragile s)
      else
        let tk : Int := takeOf fragile row remaining s
        if tk ≤ 0 then
          packRowLoop today zone fragile row fuel remaining (flush today zone fragile s)
        else
          let s' : ZoneState := stepState row tk s
          if s'.cur_weight ≤ capW fragile + TOL then
            packRowLoop today zone fragile row fuel (remaining - tk) s'
          else .assertFail
    else .ok s

/-- The `for row in group.to_dict("records")` loop of `process_zone`. -/
def processRows (today zone : String) (fragile : Bool) (fuel : Nat) :
    List ItemLine → ZoneState → PackOutcome
  | [], s => .ok s
  | row :: rest, s =>
    match packRowLoop today zone fragile row fuel row.qty s with
    | .ok s' => processRows today zone fragile fuel rest s'
    | .assertFail => .assertFail
    | .noFuel => .noFuel

/-- The fresh per-zone state at the top of `process_zone`, carrying over
the cross-zone accumulators. -/
def initState (files : List (String × List PickLine)) (summary : List SummaryRow) :
    ZoneState :=
  { cur_units := 0
    cur_weight := 0
    items := []
    orders := []
    bins := []
    pl_no := 0
    files := files
    summary := summary }

/-- `process_zone(group, zone, fragile)`: run the row loop from a fresh
bin state, then the trailing `flush()`. -/
def process_zone (today : String) (fuel : Nat) (rows : List ItemLine)
    (zone : String) (fragile : Bool)
    (files : List (String × List PickLine)) (summary : List SummaryRow) :
    PackOutcome :=
  match processRows today zone fragile fuel rows (initState files summary) with
  | .ok s => .ok (flush today zone fragile s)
  | .assertFail => .assertFail
  | .noFuel => .noFuel

/-- The boolean comparison realised by
`df.sort_values(by=["_cutoff", "_priority", "_order"])`:
lexicographic on cutoff, then priority, then order id. -/
def leKey (a b : ItemLine) : Bool :=
  if a.cutoff = b.cutoff then
    if a.priority = b.priority then decide (a.order_id ≤ b.order_id)
    else decide (a.priority ≤ b.priority)
  else decide (a.cutoff ≤ b.cutoff)

/-- The composite sort key `(cutoff, priority, order_id)`. -/
def keyOf (r : ItemLine) : Int × Int × String :=
  (r.cutoff, r.priority, r.order_id)

/-- The sort key relation as a `Prop` relation. -/
def LeKey (a b : ItemLine) : Prop := leKey a b = true

instance : DecidableRel LeKey := fun a b => instDecidableEqBool (leKey a b) true

/-- `df.sort_values(by=["_cutoff", "_priority", "_order"])`: a stable
sort by the composite key (pandas uses a stable lexicographic sort for
multi-column keys; `List.insertionSort` is a stable sort). -/
def sortRecords (rows : List ItemLine) : List ItemLine :=
  rows.insertionSort LeKey

/-- The zone keys of `groupby("_zone")`, in sorted order (pandas groupby
sorts group keys ascending). -/
def zonesOf (rows : List ItemLine) : List String :=
  ((rows.map ItemLine.zone).dedup).insertionSort (fun a b => a ≤ b)

/-- `groupby("_zone")`: each sorted zone key with its rows in stream
order. -/
def groupRows (rows : List ItemLine) : List (String × List ItemLine) :=
  (zonesOf rows).map (fun z => (z, rows.filter (fun r => r.zone = z)))

/-- The `for zone, g in ….groupby("_zone"): process_zone(g, zone, …)`
loop, threading the shared accumulators. -/
def processGroups (today : String) (fragile : Bool) (fuel : Nat) :
    List (String × List ItemLine) → List (String × List PickLine) →
    List SummaryRow → RunOutcome
  | [], files, summary => .ok files summary
  | (z, g) :: rest, files, summary =>
    match process_zone today fuel g z fragile files summary with
    | .ok s => processGroups today fragile fuel rest s.files s.summary
    | .assertFail => .assertFail
    | .noFuel => .noFuel

/-- `generate_picklists(df)`: sort, split by fragility, process normal
zones then fragile zones. -/
def generate_picklists (today : String) (fuel : Nat) (df : List ItemLine) :
    RunOutcome :=
  let sorted := sortRecords df
  let fragile_df := sorted.filter (fun r => r.fragile)
  let normal_df := sorted.filter (fun r => !r.fragile)
  match processGroups today false fuel (groupRows normal_df) [] [] with
  | .ok files summary => processGroups today true fuel (groupRows fragile_df) files summary
  | .assertFail => .assertFail
  | .noFuel => .noFuel

/-! ### Evaluation (`evaluation.py`) -/

/-- `weight_cap(row)` in `evaluation.py`. -/
def weight_cap (r : SummaryRow) : ℚ :=
  if r.picklist_type = "fragile" then FRAGILE_WEIGHT_CAP else PICKLIST_WEIGHT_CAP

/-- `Series.mean()` on a list of rationals (0 on an empty list). -/
def ratMean (xs : List ℚ) : ℚ := xs.sum / (xs.length : ℚ)

/-- `np.clip(x, 0.0, 1.0)`. -/
def clip01 (x : ℚ) : ℚ := min (max x 0) 1

/-- `df["unit_violation"] = df["total_units"] > PICKLIST_UNIT_CAP`. -/
def unit_violation (r : SummaryRow) : Bool :=
  decide (PICKLIST_UNIT_CAP < r.total_units)

/-- `df["weight_violation"] = df["total_weight"] > df["weight_cap"]`. -/
def weight_violation (r : SummaryRow) : Bool :=
  decide (weight_cap r < r.total_weight)

/-- The metrics dictionary returned by `evaluate_picklists`, extended
with the average orders per picklist used by the PQS formula. -/
structure Metrics where
  total_picklists : Nat
  avg_unit_util : ℚ
  avg_weight_util : ℚ
  violation_rate : ℚ
  avg_orders : ℚ
  PQS : ℚ
deriving DecidableEq

/-- `evaluate_picklists(summary_csv)` on an in-memory summary: the gram
sanity conversion, violation counting, capped utilizations, and the
composite quality score. -/
def evaluate_picklists (rows0 : List SummaryRow) : Metrics :=
  let rows :=
    if ratMean (rows0.map SummaryRow.total_weight) > 1000 then
      rows0.map (fun r => { r with total_weight := r.total_weight / 1000 })
    else rows0
  let total_pl := rows.length
  let total_violations :=
    (rows.filter (fun r => unit_violation r || weight_violation r)).length
  let violation_rate : ℚ :=
    if 0 < total_pl then (total_violations : ℚ) / (total_pl : ℚ) * 100 else 0
  let avg_unit_util :=
    ratMean (rows.map (fun r => (r.total_units : ℚ) / (PICKLIST_UNIT_CAP : ℚ) * 100))
  let avg_weight_util :=
    ratMean (rows.map (fun r => min r.total_weight (weight_cap r) / weight_cap r * 100))
  let avg_orders := ratMean (rows.map (fun r => (r.distinct_orders : ℚ)))
  let unit_eff := clip01 (avg_unit_util / 100)
  let weight_eff := clip01 (avg_weight_util / 100)
  let order_eff := clip01 (avg_orders / 20)
  let correctness : ℚ := 1 - violation_rate / 100
  { total_picklists := total_pl
    avg_unit_util := avg_unit_util
    avg_weight_util := avg_weight_util
    violation_rate := violation_rate
    avg_orders := avg_orders
    PQS := 0.4 * unit_eff + 0.3 * weight_eff + 0.2 * order_eff + 0.1 * correctness }

/-! ### Specification-side definitions -/

/-- Total units of a list of pick lines. -/
def linesUnits (ls : List PickLine) : Int := (ls.map PickLine.qty).sum

/-- Total weight of a list of pick lines. -/
def linesWeight (ls : List PickLine) : ℚ :=
  (ls.map (fun l => (l.qty : ℚ) * l.unit_weight)).sum

/-- All pick lines ever created in a state: flushed files first, then
the open bin. -/
def allLines (s : ZoneState) : List PickLine :=
  (s.files.map Prod.snd).flatten ++ s.items

/-- The capacity invariant of one summary row: unit cap, and weight cap
of its type within the `1e-6` tolerance. -/
def SummaryOK (r : SummaryRow) : Prop :=
  r.total_units ≤ PICKLIST_UNIT_CAP ∧
  r.total_weight ≤
    (if r.picklist_type = "fragile" then FRAGILE_WEIGHT_CAP else PICKLIST_WEIGHT_CAP) + TOL

/-- A well-formed emitted picklist file: non-empty, all quantities
positive. -/
def FileOK (f : String × List PickLine) : Prop :=
  f.2 ≠ [] ∧ ∀ l ∈ f.2, 0 < l.qty

/-- A summary row is consistent with the pick lines of its picklist. -/
def Consistent (r : SummaryRow) (ls : List PickLine) : Prop :=
  r.total_units = linesUnits ls ∧
  r.total_weight = linesWeight ls ∧
  r.distinct_orders = (ls.map PickLine.order_id).dedup.length ∧
  r.distinct_bins = (ls.map PickLine.bin).dedup.length

/-- Invariant of the open bin during `process_zone`: the running
counters and sets agree with `items`, the caps hold, and all recorded
quantities are positive. -/
structure BinInv (fragile : Bool) (s : ZoneState) : Prop where
  units_eq : s.cur_units = linesUnits s.items
  weight_eq : s.cur_weight = linesWeight s.items
  orders_eq : s.orders = s.items.map PickLine.order_id
  bins_eq : s.bins = s.items.map PickLine.bin
  units_le : s.cur_units ≤ PICKLIST_UNIT_CAP
  weight_le : s.cur_weight ≤ capW fragile
  qty_pos : ∀ l ∈ s.items, 0 < l.qty

/-- Invariant of the cross-zone accumulators: every summary row obeys
the caps, every file is well formed, and summary rows pair up with the
files they describe. -/
structure AccInv (files : List (String × List PickLine)) (summary : List SummaryRow) : Prop where
  rows_ok : ∀ r ∈ summary, SummaryOK r
  files_ok : ∀ f ∈ files, FileOK f
  rows_files : List.Forall₂ Consistent summary (files.map Prod.snd)

/-- A summary row with its date-bearing file name blanked out. -/
def scrubRow (r : SummaryRow) : SummaryRow := { r with picklist_file := "" }

/-- A state with all date-bearing file names blanked out. -/
def scrubS (s : ZoneState) : ZoneState :=
  { s with
    files := s.files.map (fun f => ("", f.2))
    summary := s.summary.map scrubRow }

/-- A pack outcome with file names blanked out. -/
def scrubPO : PackOutcome → PackOutcome
  | .ok s => .ok (scrubS s)
  | .assertFail => .assertFail
  | .noFuel => .noFuel

/-- A run outcome with file names blanked out. -/
def scrubRun : RunOutcome → RunOutcome
  | .ok files summary => .ok (files.map (fun f => ("", f.2))) (summary.map scrubRow)
  | .assertFail => .assertFail
  | .noFuel => .noFuel

/-! ### Concrete test inputs -/

/-- A fragile item whose unit weight (60 kg) exceeds
`FRAGILE_WEIGHT_CAP` (50 kg): the unpackable-item case. -/
def item60 : ItemLine :=
  { order_id := "O1", store_id := "S1", sku := "K60", qty := 1, zone := "Z"
    bin := "B1", bin_rank := "", priority := 1, weight := 60
    fragile := true, cutoff := 0 }

/-- A small packable normal item. -/
def itemA : ItemLine :=
  { order_id := "O1", store_id := "S1", sku := "KA", qty := 2, zone := "A"
    bin := "B1", bin_rank := "", priority := 1, weight := 1
    fragile := false, cutoff := 0 }

/-- A second packable normal item, same zone, different order and bin. -/
def itemB : ItemLine :=
  { order_id := "O2", store_id := "S1", sku := "KB", qty := 3, zone := "A"
    bin := "B2", bin_rank := "", priority := 2, weight := 2
    fragile := false, cutoff := 0 }

/-- A fresh, fully empty state. -/
def freshState : ZoneState := initState [] []

/-- A concrete summary row for evaluation tests. -/
def sampleRow : SummaryRow :=
  { picklist_file := "f.csv", zone := "A", picklist_no := 1
    picklist_type := "normal", total_units := 1000, total_weight := 100
    distinct_orders := 5, distinct_bins := 4 }

/-- A run completed normally (neither hung nor hit the assert). -/
def IsOk : RunOutcome → Prop
  | .ok _ _ => True
  | .assertFail => False
  | .noFuel => False

/-- The run hangs: it exhausts every fuel bound, i.e. the Python code
loops forever on this input. -/
def RunHangs (today : String) (df : List ItemLine) : Prop :=
  ∀ fuel : Nat, generate_picklists today fuel df = .noFuel

/-- A fuel budget sufficient for every row's loop: two iterations per
unit of quantity, over the whole input. -/
def fuelBound (df : List ItemLine) : Nat :=
  2 * (df.map (fun r => r.qty.toNat)).sum + 1

/-- The lexicographic order on the composite key
`(cutoff asc, priority asc, order_id asc)`, written out as the
specification describes it. -/
def KeyLE (a b : ItemLine) : Prop :=
  a.cutoff < b.cutoff ∨
    (a.cutoff = b.cutoff ∧
      (a.priority < b.priority ∨
        (a.priority = b.priority ∧ a.order_id ≤ b.order_id)))

/-- Two records with equal composite keys but different payloads, to
exhibit stability. -/
def twinA : ItemLine :=
  { order_id := "O9", store_id := "S1", sku := "KfirstTwin", qty := 1, zone := "A"
    bin := "B1", bin_rank := "", priority := 3, weight := 1
    fragile := false, cutoff := 7 }

/-- Second twin: same composite key as `twinA`, different sku. -/
def twinB : ItemLine :=
  { order_id := "O9", store_id := "S1", sku := "KsecondTwin", qty := 4, zone := "A"
    bin := "B2", bin_rank := "", priority := 3, weight := 1
    fragile := false, cutoff := 7 }

/-- An item with zero quantity (the no-op case). -/
def item0 : ItemLine :=
  { order_id := "O3", store_id := "S1", sku := "K0", qty := 0, zone := "A"
    bin := "B3", bin_rank := "", priority := 1, weight := 1
    fragile := false, cutoff := 0 }

/-- The single file emitted by the run
`generate_picklists "2025-10-12" 8 [itemA, itemB]`. -/
def runFile : String × List PickLine :=
  ("2025-10-12_ZONE_A_PL1.csv", [mkLine itemA 2, mkLine itemB 3])

/-- The files emitted by the run
`generate_picklists "2025-10-12" 8 [itemA, itemB]`. -/
def runFiles : List (String × List PickLine) := [runFile]

/-- The single summary row emitted by the run
`generate_picklists "2025-10-12" 8 [itemA, itemB]`. -/
def runRow : SummaryRow :=
  { picklist_file := "2025-10-12_ZONE_A_PL1.csv", zone := "A", picklist_no := 1
    picklist_type := "normal", total_units := 5, total_weight := 8
    distinct_orders := 2, distinct_bins := 2 }

/-- The summary emitted by the run
`generate_picklists "2025-10-12" 8 [itemA, itemB]`. -/
def runSummary : List SummaryRow := [runRow]

/-- The state after packing `itemA` alone from the fresh state. -/
def stateA : ZoneState :=
  { cur_units := 2, cur_weight := 2, items := [mkLine itemA 2]
    orders := ["O1"], bins := ["B1"], pl_no := 0, files := [], summary := [] }

/-! ### Basic lemmas -/

theorem capW_pos (fr : Bool) : 0 < capW fr := by
  cases fr <;> norm_num [capW, FRAGILE_WEIGHT_CAP, PICKLIST_WEIGHT_CAP]

theorem TOL_nonneg : 0 ≤ TOL := by norm_num [TOL]

theorem unitCap_pos : 0 < PICKLIST_UNIT_CAP := by norm_num [PICKLIST_UNIT_CAP]

theorem linesUnits_nil : linesUnits [] = 0 := rfl

theorem linesWeight_nil : linesWeight [] = 0 := rfl

theorem linesUnits_append (l₁ l₂ : List PickLine) :
    linesUnits (l₁ ++ l₂) = linesUnits l₁ + linesUnits l₂ := by
  simp [linesUnits]

theorem linesWeight_append (l₁ l₂ : List PickLine) :
    linesWeight (l₁ ++ l₂) = linesWeight l₁ + linesWeight l₂ := by
  simp [linesWeight]

theorem linesUnits_single (l : PickLine) : linesUnits [l] = l.qty := by
  simp [linesUnits]

theorem linesWeight_single (l : PickLine) : linesWeight [l] = (l.qty : ℚ) * l.unit_weight := by
  simp [linesWeight]

theorem flush_of_nil (t z : String) (fr : Bool) (s : ZoneState) (h : s.items = []) :
    flush t z fr s = s := by
  simp [flush, h]

theorem allLines_flush (t z : String) (fr : Bool) (s : ZoneState) :
    allLines (flush t z fr s) = allLines s := by
  by_cases h : s.items = []
  · rw [flush_of_nil t z fr s h]
  · simp [flush, h, allLines]

theorem allLines_stepState (row : ItemLine) (tk : Int) (s : ZoneState) :
    allLines (stepState row tk s) = allLines s ++ [mkLine row tk] := by
  simp [stepState, allLines]

theorem packRowLoop_of_nonpos (t z : String) (fr : Bool) (row : ItemLine)
    (fuel : Nat) (rem : Int) (s : ZoneState) (h : ¬ 0 < rem) :
    packRowLoop t z fr row fuel rem s = .ok s := by
  cases fuel <;> simp [packRowLoop, h]

/-! ### Invariant preservation -/

theorem take_mul_le {w aw : ℚ} {tk : Int} (hw : 0 < w) (htk : tk ≤ (aw / w).floor) :
    (tk : ℚ) * w ≤ aw := by
  have h1 : (tk : ℚ) ≤ aw / w := Rat.le_floor.mp htk
  calc (tk : ℚ) * w ≤ aw / w * w := mul_le_mul_of_nonneg_right h1 hw.le
    _ = aw := div_mul_cancel₀ aw hw.ne'

theorem one_le_floor {w c : ℚ} (hw : 0 < w) (hc : w ≤ c) : 1 ≤ (c / w).floor := by
  have h1 : ((1 : Int) : ℚ) ≤ c / w := by
    rw [Int.cast_one]
    exact (one_le_div hw).mpr hc
  exact Rat.le_floor.mpr h1

theorem takeOf_le_rem (fr : Bool) (row : ItemLine) (rem : Int) (s : ZoneState) :
    takeOf fr row rem s ≤ rem :=
  le_trans (min_le_left _ _) (min_le_left _ _)

theorem takeOf_le_availU (fr : Bool) (row : ItemLine) (rem : Int) (s : ZoneState) :
    takeOf fr row rem s ≤ availU s :=
  le_trans (min_le_left _ _) (min_le_right _ _)

theorem takeOf_le_maxBW (fr : Bool) (row : ItemLine) (rem : Int) (s : ZoneState) :
    takeOf fr row rem s ≤ maxBW fr row rem s :=
  min_le_right _ _

theorem stepState_bininv {fr : Bool} {row : ItemLine} {rem : Int} {s : ZoneState}
    (h : BinInv fr s) (hpos : 0 < takeOf fr row rem s) :
    BinInv fr (stepState row (takeOf fr row rem s) s) := by
  have hU := takeOf_le_availU fr row rem s
  have hW := takeOf_le_maxBW fr row rem s
  constructor
  · show s.cur_units + _ = linesUnits (s.items ++ [mkLine row _])
    rw [linesUnits_append, linesUnits_single, h.units_eq]
    rfl
  · show s.cur_weight + _ = linesWeight (s.items ++ [mkLine row _])
    rw [linesWeight_append, linesWeight_single, h.weight_eq]
    rfl
  · show s.orders ++ [row.order_id] = (s.items ++ [mkLine row _]).map PickLine.order_id
    rw [List.map_append, h.orders_eq]
    rfl
  · show s.bins ++ [row.bin] = (s.items ++ [mkLine row _]).map PickLine.bin
    rw [List.map_append, h.bins_eq]
    rfl
  · show s.cur_units + takeOf fr row rem s ≤ PICKLIST_UNIT_CAP
    have : availU s = PICKLIST_UNIT_CAP - s.cur_units := rfl
    omega
  · show s.cur_weight + (takeOf fr row rem s : ℚ) * row.weight ≤ capW fr
    by_cases hw : 0 < row.weight
    · have hfl : takeOf fr row rem s ≤ (availW fr s / row.weight).floor := by
        simpa [maxBW, hw] using hW
      have := take_mul_le hw hfl
      have hAW : availW fr s = capW fr - s.cur_weight := rfl
      rw [hAW] at this
      linarith
    · have hw' : row.weight ≤ 0 := not_lt.mp hw
      have htk0 : (0 : ℚ) ≤ (takeOf fr row rem s : ℚ) := by exact_mod_cast hpos.le
      have hm : (takeOf fr row rem s : ℚ) * row.weight ≤ 0 :=
        mul_nonpos_of_nonneg_of_nonpos htk0 hw'
      have := h.weight_le
      linarith
  · intro l hl
    rcases List.mem_append.mp hl with hl | hl
    · exact h.qty_pos l hl
    · rcases List.mem_singleton.mp hl with rfl
      simpa [mkLine] using hpos

theorem flush_bininv {fr : Bool} (t z : String) {s : ZoneState} (h : BinInv fr s) :
    BinInv fr (flush t z fr s) := by
  by_cases hn : s.items = []
  · rw [flush_of_nil t z fr s hn]; exact h
  · refine ⟨?_, ?_, ?_, ?_, ?_, ?_, ?_⟩ <;> simp [flush, hn, linesUnits_nil, linesWeight_nil]
    · exact unitCap_pos.le
    · exact (capW_pos fr).le

theorem AccInv_nil : AccInv [] [] :=
  ⟨by simp, by simp, List.Forall₂.nil⟩

theorem flush_accinv {fr : Bool} {t z : String} {s : ZoneState}
    (hb : BinInv fr s) (ha : AccInv s.files s.summary) :
    AccInv (flush t z fr s).files (flush t z fr s).summary := by
  by_cases hn : s.items = []
  · rw [flush_of_nil t z fr s hn]; exact ha
  · have hok : SummaryOK
        { picklist_file := fname t z (s.pl_no + 1), zone := z, picklist_no := s.pl_no + 1
          picklist_type := if fr then "fragile" else "normal"
          total_units := s.cur_units, total_weight := s.cur_weight
          distinct_orders := s.orders.dedup.length, distinct_bins := s.bins.dedup.length } := by
      refine ⟨hb.units_le, ?_⟩
      have hW := hb.weight_le
      have hT := TOL_nonneg
      cases fr with
      | false =>
        have : ¬ (("normal" : String) = "fragile") := by decide
        simp only [Bool.false_eq_true, if_false, this]
        simp only [capW, Bool.false_eq_true, if_false] at hW
        linarith
      | true =>
        simp only [if_true]
        simp only [capW, if_true] at hW
        linarith
    have hcons : Consistent
        { picklist_file := fname t z (s.pl_no + 1), zone := z, picklist_no := s.pl_no + 1
          picklist_type := if fr then "fragile" else "normal"
          total_units := s.cur_units, total_weight := s.cur_weight
          distinct_orders := s.orders.dedup.length, distinct_bins := s.bins.dedup.length }
        s.items := by
      refine ⟨hb.units_eq, hb.weight_eq, ?_, ?_⟩
      · rw [hb.orders_eq]
      · rw [hb.bins_eq]
    refine ⟨?_, ?_, ?_⟩
    · intro r hr
      simp only [flush, hn, if_false] at hr
      rcases List.mem_append.mp hr with hr | hr
      · exact ha.rows_ok r hr
      · rcases List.mem_singleton.mp hr with rfl
        exact hok
    · intro f hf
      simp only [flush, hn, if_false] at hf
      rcases List.mem_append.mp hf with hf | hf
      · exact ha.files_ok f hf
      · rcases List.mem_singleton.mp hf with rfl
        exact ⟨hn, hb.qty_pos⟩
    · simp only [flush, hn, if_false, List.map_append]
      exact List.rel_append ha.rows_files
        (List.Forall₂.cons hcons List.Forall₂.nil)

theorem stepState_files (row : ItemLine) (tk : Int) (s : ZoneState) :
    (stepState row tk s).files = s.files := rfl

theorem stepState_summary (row : ItemLine) (tk : Int) (s : ZoneState) :
    (stepState row tk s).summary = s.summary := rfl

theorem packRowLoop_inv {t z : String} {fr : Bool} {row : ItemLine} :
    ∀ (fuel : Nat) (rem : Int) (s s' : ZoneState),
      packRowLoop t z fr row fuel rem s = .ok s' →
      BinInv fr s → AccInv s.files s.summary →
      BinInv fr s' ∧ AccInv s'.files s'.summary := by
  intro fuel
  induction fuel with
  | zero =>
    intro rem s s' h hb ha
    by_cases hr : 0 < rem
    · simp [packRowLoop, hr] at h
    · simp [packRowLoop, hr] at h
      exact h ▸ ⟨hb, ha⟩
  | succ fuel ih =>
    intro rem s s' h hb ha
    by_cases hr : 0 < rem
    · rw [packRowLoop] at h
      rw [if_pos hr] at h
      by_cases hblock : availU s ≤ 0 ∨ availW fr s ≤ 0
      · rw [if_pos hblock] at h
        exact ih rem _ s' h (flush_bininv t z hb) (flush_accinv hb ha)
      · rw [if_neg hblock] at h
        simp only [] at h
        by_cases htk : takeOf fr row rem s ≤ 0
        · rw [if_pos htk] at h
          exact ih rem _ s' h (flush_bininv t z hb) (flush_accinv hb ha)
        · rw [if_neg htk] at h
          by_cases hA : (stepState row (takeOf fr row rem s) s).cur_weight ≤ capW fr + TOL
          · rw [if_pos hA] at h
            exact ih _ _ s' h (stepState_bininv hb (not_le.mp htk)) ha
          · rw [if_neg hA] at h
            cases h
    · rw [packRowLoop_of_nonpos t z fr row _ rem s hr] at h
      cases h
      exact ⟨hb, ha⟩

/-- The pick lines produced for one row: they carry the row's identity
fields, have positive quantities, are appended at the end of the output,
and their quantities sum to the remaining quantity the loop was started
with (clamped at zero). -/
theorem packRowLoop_conserve {t z : String} {fr : Bool} {row : ItemLine} :
    ∀ (fuel : Nat) (rem : Int) (s s' : ZoneState),
      packRowLoop t z fr row fuel rem s = .ok s' →
      ∃ d : List PickLine,
        allLines s' = allLines s ++ d ∧
        (∀ l ∈ d, l.sku = row.sku ∧ l.order_id = row.order_id ∧ l.store = row.store_id ∧
          l.bin = row.bin ∧ l.unit_weight = row.weight ∧ 0 < l.qty) ∧
        linesUnits d = max rem 0 := by
  intro fuel
  induction fuel with
  | zero =>
    intro rem s s' h
    by_cases hr : 0 < rem
    · simp [packRowLoop, hr] at h
    · simp [packRowLoop, hr] at h
      refine ⟨[], by simp [h], by simp, ?_⟩
      rw [linesUnits_nil, max_eq_right (not_lt.mp hr)]
  | succ fuel ih =>
    intro rem s s' h
    by_cases hr : 0 < rem
    · rw [packRowLoop] at h
      rw [if_pos hr] at h
      by_cases hblock : availU s ≤ 0 ∨ availW fr s ≤ 0
      · rw [if_pos hblock] at h
        obtain ⟨d, hd1, hd2, hd3⟩ := ih rem _ s' h
        exact ⟨d, by rw [hd1, allLines_flush], hd2, hd3⟩
      · rw [if_neg hblock] at h
        simp only [] at h
        by_cases htk : takeOf fr row rem s ≤ 0
        · rw [if_pos htk] at h
          obtain ⟨d, hd1, hd2, hd3⟩ := ih rem _ s' h
          exact ⟨d, by rw [hd1, allLines_flush], hd2, hd3⟩
        · rw [if_neg htk] at h
          by_cases hA : (stepState row (takeOf fr row rem s) s).cur_weight ≤ capW fr + TOL
          · rw [if_pos hA] at h
            obtain ⟨d, hd1, hd2, hd3⟩ := ih _ _ s' h
            refine ⟨mkLine row (takeOf fr row rem s) :: d, ?_, ?_, ?_⟩
            · rw [hd1, allLines_stepState]
              simp
            · intro l hl
              rcases List.mem_cons.mp hl with rfl | hl
              · exact ⟨rfl, rfl, rfl, rfl, rfl, not_le.mp htk⟩
              · exact hd2 l hl
            · have hle : takeOf fr row rem s ≤ rem := takeOf_le_rem fr row rem s
              have hpos : 0 < takeOf fr row rem s := not_le.mp htk
              have : linesUnits (mkLine row (takeOf fr row rem s) :: d) =
                  takeOf fr row rem s + linesUnits d := by
                simp [linesUnits, mkLine]
              rw [this, hd3, max_eq_left (by omega), max_eq_left (by omega)]
              omega
          · rw [if_neg hA] at h
            cases h
    · rw [packRowLoop_of_nonpos t z fr row _ rem s hr] at h
      cases h
      refine ⟨[], by simp, by simp, ?_⟩
      rw [linesUnits_nil, max_eq_right (not_lt.mp hr)]

/-! ### Termination of the per-row loop under the weight precondition -/

theorem fresh_take_pos {fr : Bool} {row : ItemLine} {rem : Int} {s : ZoneState}
    (hw : 0 < row.weight → row.weight ≤ capW fr) (hr : 0 < rem)
    (hu : s.cur_units = 0) (hwt : s.cur_weight = 0) :
    0 < takeOf fr row rem s := by
  have h1 : 0 < availU s := by
    have := unitCap_pos
    unfold availU
    omega
  have h2 : 0 < maxBW fr row rem s := by
    unfold maxBW
    by_cases hw0 : 0 < row.weight
    · rw [if_pos hw0]
      have hAW : availW fr s = capW fr := by
        unfold availW
        rw [hwt, sub_zero]
      rw [hAW]
      have := one_le_floor hw0 (hw hw0)
      omega
    · rw [if_neg hw0]
      exact hr
  exact lt_min (lt_min hr h1) h2

theorem items_ne_of_blocked {fr : Bool} {s : ZoneState} (hb : BinInv fr s)
    (hblock : availU s ≤ 0 ∨ availW fr s ≤ 0) : s.items ≠ [] := by
  intro hnil
  have hu : s.cur_units = 0 := by rw [hb.units_eq, hnil]; rfl
  have hw0 : s.cur_weight = 0 := by rw [hb.weight_eq, hnil]; rfl
  rcases hblock with hB | hB
  · unfold availU at hB
    rw [hu] at hB
    have := unitCap_pos
    omega
  · unfold availW at hB
    rw [hw0] at hB
    have := capW_pos fr
    linarith

theorem items_ne_of_take_nonpos {fr : Bool} {row : ItemLine} {rem : Int} {s : ZoneState}
    (hw : 0 < row.weight → row.weight ≤ capW fr) (hb : BinInv fr s) (hr : 0 < rem)
    (htk : takeOf fr row rem s ≤ 0) : s.items ≠ [] := by
  intro hnil
  have hu : s.cur_units = 0 := by rw [hb.units_eq, hnil]; rfl
  have hwt : s.cur_weight = 0 := by rw [hb.weight_eq, hnil]; rfl
  have := fresh_take_pos hw hr hu hwt
  omega

theorem packRowLoop_fresh {t z : String} {fr : Bool} {row : ItemLine} {rem : Int}
    {fuel : Nat} {s : ZoneState}
    (hw : 0 < row.weight → row.weight ≤ capW fr) (hr : 0 < rem)
    (hu : s.cur_units = 0) (hwt : s.cur_weight = 0) (hb : BinInv fr s) :
    packRowLoop t z fr row (fuel + 1) rem s =
      packRowLoop t z fr row fuel (rem - takeOf fr row rem s)
        (stepState row (takeOf fr row rem s) s) := by
  rw [packRowLoop, if_pos hr]
  have hnb : ¬ (availU s ≤ 0 ∨ availW fr s ≤ 0) := by
    push_neg
    constructor
    · have := unitCap_pos
      unfold availU
      omega
    · unfold availW
      rw [hwt, sub_zero]
      exact capW_pos fr
  rw [if_neg hnb]
  simp only []
  have htk := fresh_take_pos hw hr hu hwt
  rw [if_neg (not_le.mpr htk)]
  have hbin₂ := stepState_bininv hb htk
  rw [if_pos (le_trans hbin₂.weight_le (le_add_of_nonneg_right TOL_nonneg))]

theorem flush_cur_units {t z : String} {fr : Bool} {s : ZoneState} (hne : s.items ≠ []) :
    (flush t z fr s).cur_units = 0 := by
  simp [flush, hne]

theorem flush_cur_weight {t z : String} {fr : Bool} {s : ZoneState} (hne : s.items ≠ []) :
    (flush t z fr s).cur_weight = 0 := by
  simp [flush, hne]

theorem packRowLoop_term {t z : String} {fr : Bool} {row : ItemLine}
    (hw : 0 < row.weight → row.weight ≤ capW fr) :
    ∀ (n : Nat) (rem : Int) (fuel : Nat) (s : ZoneState),
      rem.toNat ≤ n → 2 * rem.toNat ≤ fuel → BinInv fr s →
      ∃ s', packRowLoop t z fr row fuel rem s = .ok s' := by
  intro n
  induction n with
  | zero =>
    intro rem fuel s hn _ _
    have hr : ¬ 0 < rem := by omega
    exact ⟨s, packRowLoop_of_nonpos t z fr row fuel rem s hr⟩
  | succ n ih =>
    intro rem fuel s hn hf hb
    by_cases hr : 0 < rem
    · have h2 : 2 ≤ fuel := by omega
      obtain ⟨f1, rfl⟩ : ∃ f1, fuel = f1 + 1 := ⟨fuel - 1, by omega⟩
      by_cases hblock : availU s ≤ 0 ∨ availW fr s ≤ 0
      · rw [packRowLoop, if_pos hr, if_pos hblock]
        have hne := items_ne_of_blocked hb hblock
        have hb₁ := flush_bininv t z hb
        obtain ⟨f2, rfl⟩ : ∃ f2, f1 = f2 + 1 := ⟨f1 - 1, by omega⟩
        rw [packRowLoop_fresh hw hr (flush_cur_units hne) (flush_cur_weight hne) hb₁]
        have htk := fresh_take_pos hw hr (@flush_cur_units t z fr s hne)
          (@flush_cur_weight t z fr s hne)
        have htk1 : 1 ≤ takeOf fr row rem (flush t z fr s) := htk
        have htkr : takeOf fr row rem (flush t z fr s) ≤ rem :=
          takeOf_le_rem fr row rem (flush t z fr s)
        apply ih _ f2 _ (by omega) (by omega)
        exact stepState_bininv hb₁ htk
      · by_cases htk : takeOf fr row rem s ≤ 0
        · rw [packRowLoop, if_pos hr, if_neg hblock]
          simp only []
          rw [if_pos htk]
          have hne := items_ne_of_take_nonpos hw hb hr htk
          have hb₁ := flush_bininv t z hb
          obtain ⟨f2, rfl⟩ : ∃ f2, f1 = f2 + 1 := ⟨f1 - 1, by omega⟩
          rw [packRowLoop_fresh hw hr (flush_cur_units hne) (flush_cur_weight hne) hb₁]
          have htkp := fresh_take_pos hw hr (@flush_cur_units t z fr s hne)
            (@flush_cur_weight t z fr s hne)
          have htkr : takeOf fr row rem (flush t z fr s) ≤ rem :=
            takeOf_le_rem fr row rem (flush t z fr s)
          apply ih _ f2 _ (by omega) (by omega)
          exact stepState_bininv hb₁ htkp
        · rw [packRowLoop, if_pos hr, if_neg hblock]
          simp only []
          rw [if_neg htk]
          have htkp : 0 < takeOf fr row rem s := not_le.mp htk
          have hbin₂ := stepState_bininv hb htkp
          rw [if_pos (le_trans hbin₂.weight_le (le_add_of_nonneg_right TOL_nonneg))]
          have htkr : takeOf fr row rem s ≤ rem := takeOf_le_rem fr row rem s
          apply ih _ f1 _ (by omega) (by omega)
          exact hbin₂
    · exact ⟨s, packRowLoop_of_nonpos t z fr row _ rem s hr⟩

/-! ### Lifting to whole runs -/

theorem processRows_inv {t z : String} {fr : Bool} {fuel : Nat} :
    ∀ (rows : List ItemLine) (s s' : ZoneState),
      processRows t z fr fuel rows s = .ok s' →
      BinInv fr s → AccInv s.files s.summary →
      BinInv fr s' ∧ AccInv s'.files s'.summary := by
  intro rows
  induction rows with
  | nil =>
    intro s s' h hb ha
    cases h
    exact ⟨hb, ha⟩
  | cons row rest ih =>
    intro s s' h hb ha
    simp only [processRows] at h
    cases hpl : packRowLoop t z fr row fuel row.qty s with
    | ok s₁ =>
      rw [hpl] at h
      obtain ⟨hb₁, ha₁⟩ := packRowLoop_inv fuel row.qty s s₁ hpl hb ha
      exact ih s₁ s' h hb₁ ha₁
    | assertFail => rw [hpl] at h; cases h
    | noFuel => rw [hpl] at h; cases h

theorem processRows_term {t z : String} {fr : Bool} {fuel : Nat} :
    ∀ (rows : List ItemLine) (s : ZoneState),
      (∀ row ∈ rows, 0 < row.qty → 0 < row.weight → row.weight ≤ capW fr) →
      (∀ row ∈ rows, 2 * row.qty.toNat ≤ fuel) →
      BinInv fr s → AccInv s.files s.summary →
      ∃ s', processRows t z fr fuel rows s = .ok s' := by
  intro rows
  induction rows with
  | nil =>
    intro s _ _ _ _
    exact ⟨s, rfl⟩
  | cons row rest ih =>
    intro s hpre hfuel hb ha
    have hrow : ∃ s₁, packRowLoop t z fr row fuel row.qty s = .ok s₁ := by
      by_cases hq : 0 < row.qty
      · exact packRowLoop_term
          (fun hw0 => hpre row (List.mem_cons_self row rest) hq hw0)
          row.qty.toNat row.qty fuel s le_rfl
          (hfuel row (List.mem_cons_self row rest)) hb
      · exact ⟨s, packRowLoop_of_nonpos t z fr row fuel row.qty s hq⟩
    obtain ⟨s₁, h₁⟩ := hrow
    obtain ⟨hb₁, ha₁⟩ := packRowLoop_inv fuel row.qty s s₁ h₁ hb ha
    obtain ⟨s', h'⟩ := ih s₁
      (fun r hr => hpre r (List.mem_cons_of_mem row hr))
      (fun r hr => hfuel r (List.mem_cons_of_mem row hr)) hb₁ ha₁
    refine ⟨s', ?_⟩
    simp only [processRows]
    rw [h₁]
    exact h'

theorem initState_bininv (fr : Bool) (files : List (String × List PickLine))
    (summary : List SummaryRow) : BinInv fr (initState files summary) := by
  refine ⟨rfl, rfl, rfl, rfl, ?_, ?_, ?_⟩
  · exact unitCap_pos.le
  · exact (capW_pos fr).le
  · intro l hl
    cases hl

theorem process_zone_inv {t : String} {fuel : Nat} {rows : List ItemLine} {z : String}
    {fr : Bool} {files : List (String × List PickLine)} {summary : List SummaryRow}
    {s' : ZoneState} (h : process_zone t fuel rows z fr files summary = .ok s')
    (ha : AccInv files summary) : AccInv s'.files s'.summary := by
  unfold process_zone at h
  cases hpr : processRows t z fr fuel rows (initState files summary) with
  | ok s₁ =>
    rw [hpr] at h
    obtain ⟨hb₁, ha₁⟩ := processRows_inv rows _ s₁ hpr (initState_bininv fr files summary) ha
    cases h
    exact flush_accinv hb₁ ha₁
  | assertFail => rw [hpr] at h; cases h
  | noFuel => rw [hpr] at h; cases h

theorem process_zone_term {t : String} {fuel : Nat} {rows : List ItemLine} {z : String}
    {fr : Bool} {files : List (String × List PickLine)} {summary : List SummaryRow}
    (hpre : ∀ row ∈ rows, 0 < row.qty → 0 < row.weight → row.weight ≤ capW fr)
    (hfuel : ∀ row ∈ rows, 2 * row.qty.toNat ≤ fuel)
    (ha : AccInv files summary) :
    ∃ s', process_zone t fuel rows z fr files summary = .ok s' := by
  obtain ⟨s₁, h₁⟩ := processRows_term rows (initState files summary) hpre hfuel
    (initState_bininv fr files summary) ha
  refine ⟨flush t z fr s₁, ?_⟩
  unfold process_zone
  rw [h₁]

theorem processGroups_inv {t : String} {fr : Bool} {fuel : Nat} :
    ∀ (groups : List (String × List ItemLine)) (files : List (String × List PickLine))
      (summary : List SummaryRow) (files' : List (String × List PickLine))
      (summary' : List SummaryRow),
      processGroups t fr fuel groups files summary = .ok files' summary' →
      AccInv files summary → AccInv files' summary' := by
  intro groups
  induction groups with
  | nil =>
    intro files summary files' summary' h ha
    cases h
    exact ha
  | cons zg rest ih =>
    intro files summary files' summary' h ha
    obtain ⟨z, g⟩ := zg
    simp only [processGroups] at h
    cases hpz : process_zone t fuel g z fr files summary with
    | ok s₁ =>
      rw [hpz] at h
      exact ih s₁.files s₁.summary files' summary' h (process_zone_inv hpz ha)
    | assertFail => rw [hpz] at h; cases h
    | noFuel => rw [hpz] at h; cases h

theorem processGroups_term {t : String} {fr : Bool} {fuel : Nat} :
    ∀ (groups : List (String × List ItemLine)) (files : List (String × List PickLine))
      (summary : List SummaryRow),
      (∀ zg ∈ groups, ∀ row ∈ zg.2, 0 < row.qty → 0 < row.weight → row.weight ≤ capW fr) →
      (∀ zg ∈ groups, ∀ row ∈ zg.2, 2 * row.qty.toNat ≤ fuel) →
      AccInv files summary →
      ∃ files' summary', processGroups t fr fuel groups files summary = .ok files' summary' := by
  intro groups
  induction groups with
  | nil =>
    intro files summary _ _ _
    exact ⟨files, summary, rfl⟩
  | cons zg rest ih =>
    intro files summary hpre hfuel ha
    obtain ⟨z, g⟩ := zg
    obtain ⟨s₁, h₁⟩ := process_zone_term
      (hpre (z, g) (List.mem_cons_self (z, g) rest))
      (hfuel (z, g) (List.mem_cons_self (z, g) rest)) ha
    obtain ⟨files', summary', h'⟩ := ih s₁.files s₁.summary
      (fun p hp => hpre p (List.mem_cons_of_mem (z, g) hp))
      (fun p hp => hfuel p (List.mem_cons_of_mem (z, g) hp))
      (process_zone_inv h₁ ha)
    refine ⟨files', summary', ?_⟩
    simp only [processGroups]
    rw [h₁]
    exact h'

theorem generate_inv {t : String} {fuel : Nat} {df : List ItemLine}
    {files : List (String × List PickLine)} {summary : List SummaryRow}
    (h : generate_picklists t fuel df = .ok files summary) : AccInv files summary := by
  unfold generate_picklists at h
  simp only [] at h
  cases h1 : processGroups t false fuel
      (groupRows ((sortRecords df).filter (fun r => !r.fragile))) [] [] with
  | ok f1 s1 =>
    rw [h1] at h
    exact processGroups_inv _ f1 s1 files summary h
      (processGroups_inv _ [] [] f1 s1 h1 AccInv_nil)
  | assertFail => rw [h1] at h; cases h
  | noFuel => rw [h1] at h; cases h

theorem mem_of_mem_groupRows {lst : List ItemLine} {zg : String × List ItemLine}
    (h : zg ∈ groupRows lst) {row : ItemLine} (hr : row ∈ zg.2) : row ∈ lst := by
  unfold groupRows at h
  obtain ⟨z, _, rfl⟩ := List.mem_map.mp h
  exact (List.mem_filter.mp hr).1

theorem mem_of_mem_sortRecords {df : List ItemLine} {row : ItemLine}
    (h : row ∈ sortRecords df) : row ∈ df := by
  unfold sortRecords at h
  exact (List.mem_insertionSort LeKey).mp h

theorem fuelBound_row {df : List ItemLine} {row : ItemLine} (h : row ∈ df) :
    2 * row.qty.toNat ≤ fuelBound df := by
  have hmem : row.qty.toNat ∈ df.map (fun r => r.qty.toNat) := List.mem_map_of_mem _ h
  have := List.single_le_sum (fun (x : Nat) _ => Nat.zero_le x) _ hmem
  unfold fuelBound
  omega

theorem generate_term {t : String} {df : List ItemLine}
    (hpre : ∀ r ∈ df, 0 < r.qty → 0 < r.weight → r.weight ≤ capW r.fragile) :
    IsOk (generate_picklists t (fuelBound df) df) := by
  unfold generate_picklists
  simp only []
  have hside : ∀ (b : Bool), ∀ zg ∈ groupRows ((sortRecords df).filter
        (fun r => if b then r.fragile else !r.fragile)), ∀ row ∈ zg.2,
      (0 < row.qty → 0 < row.weight → row.weight ≤ capW b) ∧
      2 * row.qty.toNat ≤ fuelBound df := by
    intro b zg hzg row hrow
    have hmem : row ∈ (sortRecords df).filter (fun r => if b then r.fragile else !r.fragile) :=
      mem_of_mem_groupRows hzg hrow
    have hdf : row ∈ df := mem_of_mem_sortRecords (List.mem_filter.mp hmem).1
    have hfrag : row.fragile = b := by
      have h2 := (List.mem_filter.mp hmem).2
      cases b
      · simpa using h2
      · simpa using h2
    constructor
    · intro hq hw0
      have := hpre row hdf hq hw0
      rwa [hfrag] at this
    · exact fuelBound_row hdf
  obtain ⟨f1, s1, h1⟩ := processGroups_term
    (groupRows ((sortRecords df).filter (fun r => !r.fragile))) [] []
    (fun zg hzg row hrow => ((hside false zg hzg row hrow).1))
    (fun zg hzg row hrow => ((hside false zg hzg row hrow).2)) AccInv_nil
  rw [h1]
  show IsOk (processGroups t true (fuelBound df)
    (groupRows ((sortRecords df).filter (fun r => r.fragile))) f1 s1)
  obtain ⟨f2, s2, h2⟩ := processGroups_term (t := t)
    (groupRows ((sortRecords df).filter (fun r => r.fragile))) f1 s1
    (fun zg hzg row hrow => ((hside true zg hzg row hrow).1))
    (fun zg hzg row hrow => ((hside true zg hzg row hrow).2))
    (processGroups_inv _ [] [] f1 s1 h1 AccInv_nil)
  rw [h2]
  trivial

/-! ### The unpackable-item infinite loop -/

theorem item60_take_nonpos {s : ZoneState} (hw : s.cur_weight = 0) :
    takeOf true item60 1 s ≤ 0 := by
  have hfl : ((50 : ℚ) / 60).floor ≤ 0 := by
    by_contra hcon
    push_neg at hcon
    have h1 : ((1 : Int) : ℚ) ≤ (50 : ℚ) / 60 := Rat.le_floor.mp (by omega)
    norm_num at h1
  have hAW : availW true s = 50 := by
    unfold availW
    rw [hw, sub_zero]
    norm_num [capW, FRAGILE_WEIGHT_CAP]
  have hmbw : maxBW true item60 1 s ≤ 0 := by
    unfold maxBW
    have hw60 : (0 : ℚ) < item60.weight := by norm_num [item60]
    rw [if_pos hw60, hAW]
    have : item60.weight = 60 := rfl
    rw [this]
    exact hfl
  exact le_trans (min_le_right _ _) hmbw

theorem item60_loop {t z : String} :
    ∀ (fuel : Nat) (s : ZoneState), s.cur_units = 0 → s.cur_weight = 0 → s.items = [] →
      packRowLoop t z true item60 fuel 1 s = .noFuel := by
  intro fuel
  induction fuel with
  | zero =>
    intro s _ _ _
    simp [packRowLoop]
  | succ fuel ih =>
    intro s hu hw hn
    rw [packRowLoop, if_pos (by norm_num : (0 : Int) < 1)]
    have hnb : ¬ (availU s ≤ 0 ∨ availW true s ≤ 0) := by
      push_neg
      constructor
      · have := unitCap_pos
        unfold availU
        omega
      · unfold availW
        rw [hw, sub_zero]
        exact capW_pos true
    rw [if_neg hnb]
    simp only []
    rw [if_pos (item60_take_nonpos hw)]
    rw [flush_of_nil t z true s hn]
    exact ih s hu hw hn

theorem generate_item60_noFuel :
    ∀ fuel : Nat, generate_picklists "2025-01-01" fuel [item60] = .noFuel := by
  intro fuel
  have h0 : generate_picklists "2025-01-01" fuel [item60] =
      processGroups "2025-01-01" true fuel [("Z", [item60])] [] [] := rfl
  rw [h0]
  simp only [processGroups, process_zone, processRows]
  rw [show item60.qty = 1 from rfl]
  rw [item60_loop fuel (initState [] []) rfl rfl rfl]

/-! ### The composite-key order -/

theorem leKey_iff {a b : ItemLine} : LeKey a b ↔ KeyLE a b := by
  unfold LeKey leKey KeyLE
  by_cases h1 : a.cutoff = b.cutoff
  · rw [if_pos h1]
    by_cases h2 : a.priority = b.priority
    · rw [if_pos h2]
      simp [h1, h2, decide_eq_true_iff]
    · rw [if_neg h2]
      simp only [h1, h2, decide_eq_true_iff, lt_self_iff_false, false_or, false_and, or_false,
        true_and]
      omega
  · rw [if_neg h1]
    simp only [h1, decide_eq_true_iff, false_and, or_false]
    omega

theorem KeyLE_trans {a b c : ItemLine} (h1 : KeyLE a b) (h2 : KeyLE b c) : KeyLE a c := by
  unfold KeyLE at h1 h2 ⊢
  rcases h1 with h1 | ⟨e1, h1⟩ <;> rcases h2 with h2 | ⟨e2, h2⟩
  · left; omega
  · left; omega
  · left; omega
  · refine Or.inr ⟨e1.trans e2, ?_⟩
    rcases h1 with h1 | ⟨f1, h1⟩ <;> rcases h2 with h2 | ⟨f2, h2⟩
    · left; omega
    · left; omega
    · left; omega
    · exact Or.inr ⟨f1.trans f2, le_trans h1 h2⟩

theorem KeyLE_total (a b : ItemLine) : KeyLE a b ∨ KeyLE b a := by
  unfold KeyLE
  rcases lt_trichotomy a.cutoff b.cutoff with h | h | h
  · exact Or.inl (Or.inl h)
  · rcases lt_trichotomy a.priority b.priority with h2 | h2 | h2
    · exact Or.inl (Or.inr ⟨h, Or.inl h2⟩)
    · rcases le_total a.order_id b.order_id with h3 | h3
      · exact Or.inl (Or.inr ⟨h, Or.inr ⟨h2, h3⟩⟩)
      · exact Or.inr (Or.inr ⟨h.symm, Or.inr ⟨h2.symm, h3⟩⟩)
    · exact Or.inr (Or.inr ⟨h.symm, Or.inl h2⟩)
  · exact Or.inr (Or.inl h)

instance : IsTrans ItemLine LeKey :=
  ⟨fun _ _ _ h1 h2 => leKey_iff.mpr (KeyLE_trans (leKey_iff.mp h1) (leKey_iff.mp h2))⟩

instance : IsTotal ItemLine LeKey :=
  ⟨fun a b => by
    rcases KeyLE_total a b with h | h
    · exact Or.inl (leKey_iff.mpr h)
    · exact Or.inr (leKey_iff.mpr h)⟩

theorem LeKey_of_keyOf_eq {a b : ItemLine} (h : keyOf a = keyOf b) : LeKey a b := by
  unfold keyOf at h
  obtain ⟨e1, e2, e3⟩ : a.cutoff = b.cutoff ∧ a.priority = b.priority ∧
      a.order_id = b.order_id := by
    simpa [Prod.ext_iff] using h
  exact leKey_iff.mpr (Or.inr ⟨e1, Or.inr ⟨e2, e3.le⟩⟩)

/-! ### The run date flows only into file names -/

theorem scrubS_fields {s₁ s₂ : ZoneState} (h : scrubS s₁ = scrubS s₂) :
    s₁.cur_units = s₂.cur_units ∧ s₁.cur_weight = s₂.cur_weight ∧ s₁.items = s₂.items ∧
    s₁.orders = s₂.orders ∧ s₁.bins = s₂.bins ∧ s₁.pl_no = s₂.pl_no ∧
    s₁.files.map (fun f => ("", f.2)) = s₂.files.map (fun f => ("", f.2)) ∧
    s₁.summary.map scrubRow = s₂.summary.map scrubRow := by
  have h1 := congrArg ZoneState.cur_units h
  have h2 := congrArg ZoneState.cur_weight h
  have h3 := congrArg ZoneState.items h
  have h4 := congrArg ZoneState.orders h
  have h5 := congrArg ZoneState.bins h
  have h6 := congrArg ZoneState.pl_no h
  have h7 := congrArg ZoneState.files h
  have h8 := congrArg ZoneState.summary h
  exact ⟨h1, h2, h3, h4, h5, h6, h7, h8⟩

theorem scrubS_flush {t₁ t₂ z : String} {fr : Bool} {s₁ s₂ : ZoneState}
    (h : scrubS s₁ = scrubS s₂) :
    scrubS (flush t₁ z fr s₁) = scrubS (flush t₂ z fr s₂) := by
  obtain ⟨hu, hw, hi, ho, hb, hp, hf, hs⟩ := scrubS_fields h
  by_cases hn : s₁.items = []
  · rw [flush_of_nil t₁ z fr s₁ hn, flush_of_nil t₂ z fr s₂ (hi ▸ hn)]
    exact h
  · have hn₂ : s₂.items ≠ [] := hi ▸ hn
    unfold flush
    rw [if_neg hn, if_neg hn₂]
    unfold scrubS
    simp only [List.map_append, List.map_cons, List.map_nil]
    simp [scrubRow, hu, hw, hi, ho, hb, hp, hf, hs]

theorem scrubPO_packRowLoop {t₁ t₂ z : String} {fr : Bool} {row : ItemLine} :
    ∀ (fuel : Nat) (rem : Int) (s₁ s₂ : ZoneState), scrubS s₁ = scrubS s₂ →
      scrubPO (packRowLoop t₁ z fr row fuel rem s₁) =
        scrubPO (packRowLoop t₂ z fr row fuel rem s₂) := by
  intro fuel
  induction fuel with
  | zero =>
    intro rem s₁ s₂ h
    by_cases hr : 0 < rem <;> simp [packRowLoop, hr, scrubPO, h]
  | succ fuel ih =>
    intro rem s₁ s₂ h
    obtain ⟨hu, hw, hi, ho, hb, hp, hf, hs⟩ := scrubS_fields h
    have havU : availU s₂ = availU s₁ := by unfold availU; rw [hu]
    have havW : availW fr s₂ = availW fr s₁ := by unfold availW; rw [hw]
    have htkeq : takeOf fr row rem s₂ = takeOf fr row rem s₁ := by
      unfold takeOf maxBW
      rw [havU, havW]
    have hstep : scrubS (stepState row (takeOf fr row rem s₁) s₁) =
        scrubS (stepState row (takeOf fr row rem s₁) s₂) := by
      unfold stepState scrubS
      simp only [List.map_append]
      rw [hu, hw, hi, ho, hb, hp, hf, hs]
    have hcw : (stepState row (takeOf fr row rem s₁) s₂).cur_weight =
        (stepState row (takeOf fr row rem s₁) s₁).cur_weight := by
      show s₂.cur_weight + _ = s₁.cur_weight + _
      rw [hw]
    rw [packRowLoop, packRowLoop, htkeq, havU, havW]
    simp only []
    rw [hcw]
    by_cases hr : 0 < rem
    · rw [if_pos hr, if_pos hr]
      by_cases hblock : availU s₁ ≤ 0 ∨ availW fr s₁ ≤ 0
      · rw [if_pos hblock, if_pos hblock]
        exact ih rem _ _ (scrubS_flush h)
      · rw [if_neg hblock, if_neg hblock]
        by_cases htk : takeOf fr row rem s₁ ≤ 0
        · rw [if_pos htk, if_pos htk]
          exact ih rem _ _ (scrubS_flush h)
        · rw [if_neg htk, if_neg htk]
          by_cases hA : (stepState row (takeOf fr row rem s₁) s₁).cur_weight ≤ capW fr + TOL
          · rw [if_pos hA, if_pos hA]
            exact ih _ _ _ hstep
          · rw [if_neg hA, if_neg hA]
    · rw [if_neg hr, if_neg hr]
      simp [scrubPO, h]

theorem scrubPO_processRows {t₁ t₂ z : String} {fr : Bool} {fuel : Nat} :
    ∀ (rows : List ItemLine) (s₁ s₂ : ZoneState), scrubS s₁ = scrubS s₂ →
      scrubPO (processRows t₁ z fr fuel rows s₁) =
        scrubPO (processRows t₂ z fr fuel rows s₂) := by
  intro rows
  induction rows with
  | nil =>
    intro s₁ s₂ h
    simp [processRows, scrubPO, h]
  | cons row rest ih =>
    intro s₁ s₂ h
    simp only [processRows]
    have hpl := @scrubPO_packRowLoop t₁ t₂ z fr row fuel row.qty s₁ s₂ h
    cases e₁ : packRowLoop t₁ z fr row fuel row.qty s₁ with
    | ok s₁' =>
      rw [e₁] at hpl
      cases e₂ : packRowLoop t₂ z fr row fuel row.qty s₂ with
      | ok s₂' =>
        rw [e₂] at hpl
        simp only [scrubPO, PackOutcome.ok.injEq] at hpl
        exact ih s₁' s₂' hpl
      | assertFail => rw [e₂] at hpl; simp [scrubPO] at hpl
      | noFuel => rw [e₂] at hpl; simp [scrubPO] at hpl
    | assertFail =>
      rw [e₁] at hpl
      cases e₂ : packRowLoop t₂ z fr row fuel row.qty s₂ with
      | ok s₂' => rw [e₂] at hpl; simp [scrubPO] at hpl
      | assertFail => rfl
      | noFuel => rw [e₂] at hpl; simp [scrubPO] at hpl
    | noFuel =>
      rw [e₁] at hpl
      cases e₂ : packRowLoop t₂ z fr row fuel row.qty s₂ with
      | ok s₂' => rw [e₂] at hpl; simp [scrubPO] at hpl
      | assertFail => rw [e₂] at hpl; simp [scrubPO] at hpl
      | noFuel => rfl

theorem scrubPO_process_zone {t₁ t₂ z : String} {fr : Bool} {fuel : Nat}
    {rows : List ItemLine} {files₁ files₂ : List (String × List PickLine)}
    {summary₁ summary₂ : List SummaryRow}
    (hf : files₁.map (fun f => ("", f.2)) = files₂.map (fun f => ("", f.2)))
    (hs : summary₁.map scrubRow = summary₂.map scrubRow) :
    scrubPO (process_zone t₁ fuel rows z fr files₁ summary₁) =
      scrubPO (process_zone t₂ fuel rows z fr files₂ summary₂) := by
  have hinit : scrubS (initState files₁ summary₁) = scrubS (initState files₂ summary₂) := by
    unfold initState scrubS
    simp [hf, hs]
  have hpr := @scrubPO_processRows t₁ t₂ z fr fuel rows _ _ hinit
  unfold process_zone
  cases e₁ : processRows t₁ z fr fuel rows (initState files₁ summary₁) with
  | ok s₁' =>
    rw [e₁] at hpr
    cases e₂ : processRows t₂ z fr fuel rows (initState files₂ summary₂) with
    | ok s₂' =>
      rw [e₂] at hpr
      simp only [scrubPO, PackOutcome.ok.injEq] at hpr
      simp only [scrubPO, PackOutcome.ok.injEq]
      exact scrubS_flush hpr
    | assertFail => rw [e₂] at hpr; simp [scrubPO] at hpr
    | noFuel => rw [e₂] at hpr; simp [scrubPO] at hpr
  | assertFail =>
    rw [e₁] at hpr
    cases e₂ : processRows t₂ z fr fuel rows (initState files₂ summary₂) with
    | ok s₂' => rw [e₂] at hpr; simp [scrubPO] at hpr
    | assertFail => rfl
    | noFuel => rw [e₂] at hpr; simp [scrubPO] at hpr
  | noFuel =>
    rw [e₁] at hpr
    cases e₂ : processRows t₂ z fr fuel rows (initState files₂ summary₂) with
    | ok s₂' => rw [e₂] at hpr; simp [scrubPO] at hpr
    | assertFail => rw [e₂] at hpr; simp [scrubPO] at hpr
    | noFuel => rfl

theorem scrubRun_processGroups {t₁ t₂ : String} {fr : Bool} {fuel : Nat} :
    ∀ (groups : List (String × List ItemLine))
      (files₁ files₂ : List (String × List PickLine))
      (summary₁ summary₂ : List SummaryRow),
      files₁.map (fun f => ("", f.2)) = files₂.map (fun f => ("", f.2)) →
      summary₁.map scrubRow = summary₂.map scrubRow →
      scrubRun (processGroups t₁ fr fuel groups files₁ summary₁) =
        scrubRun (processGroups t₂ fr fuel groups files₂ summary₂) := by
  intro groups
  induction groups with
  | nil =>
    intro files₁ files₂ summary₁ summary₂ hf hs
    simp [processGroups, scrubRun, hf, hs]
  | cons zg rest ih =>
    intro files₁ files₂ summary₁ summary₂ hf hs
    obtain ⟨z, g⟩ := zg
    simp only [processGroups]
    have hpz := @scrubPO_process_zone t₁ t₂ z fr fuel g files₁ files₂ summary₁ summary₂ hf hs
    cases e₁ : process_zone t₁ fuel g z fr files₁ summary₁ with
    | ok s₁' =>
      rw [e₁] at hpz
      cases e₂ : process_zone t₂ fuel g z fr files₂ summary₂ with
      | ok s₂' =>
        rw [e₂] at hpz
        simp only [scrubPO, PackOutcome.ok.injEq] at hpz
        obtain ⟨_, _, _, _, _, _, hf', hs'⟩ := scrubS_fields hpz
        exact ih s₁'.files s₂'.files s₁'.summary s₂'.summary hf' hs'
      | assertFail => rw [e₂] at hpz; simp [scrubPO] at hpz
      | noFuel => rw [e₂] at hpz; simp [scrubPO] at hpz
    | assertFail =>
      rw [e₁] at hpz
      cases e₂ : process_zone t₂ fuel g z fr files₂ summary₂ with
      | ok s₂' => rw [e₂] at hpz; simp [scrubPO] at hpz
      | assertFail => rfl
      | noFuel => rw [e₂] at hpz; simp [scrubPO] at hpz
    | noFuel =>
      rw [e₁] at hpz
      cases e₂ : process_zone t₂ fuel g z fr files₂ summary₂ with
      | ok s₂' => rw [e₂] at hpz; simp [scrubPO] at hpz
      | assertFail => rw [e₂] at hpz; simp [scrubPO] at hpz
      | noFuel => rfl

theorem scrubRun_generate (t₁ t₂ : String) (fuel : Nat) (df : List ItemLine) :
    scrubRun (generate_picklists t₁ fuel df) = scrubRun (generate_picklists t₂ fuel df) := by
  unfold generate_picklists
  simp only []
  have h1 := @scrubRun_processGroups t₁ t₂ false fuel
    (groupRows ((sortRecords df).filter (fun r => !r.fragile))) [] [] [] [] rfl rfl
  cases e₁ : processGroups t₁ false fuel
      (groupRows ((sortRecords df).filter (fun r => !r.fragile))) [] [] with
  | ok f₁ s₁ =>
    rw [e₁] at h1
    cases e₂ : processGroups t₂ false fuel
        (groupRows ((sortRecords df).filter (fun r => !r.fragile))) [] [] with
    | ok f₂ s₂ =>
      rw [e₂] at h1
      simp only [scrubRun, RunOutcome.ok.injEq] at h1
      exact scrubRun_processGroups _ f₁ f₂ s₁ s₂ h1.1 h1.2
    | assertFail => rw [e₂] at h1; simp [scrubRun] at h1
    | noFuel => rw [e₂] at h1; simp [scrubRun] at h1
  | assertFail =>
    rw [e₁] at h1
    cases e₂ : processGroups t₂ false fuel
        (groupRows ((sortRecords df).filter (fun r => !r.fragile))) [] [] with
    | ok f₂ s₂ => rw [e₂] at h1; simp [scrubRun] at h1
    | assertFail => rfl
    | noFuel => rw [e₂] at h1; simp [scrubRun] at h1
  | noFuel =>
    rw [e₁] at h1
    cases e₂ : processGroups t₂ false fuel
        (groupRows ((sortRecords df).filter (fun r => !r.fragile))) [] [] with
    | ok f₂ s₂ => rw [e₂] at h1; simp [scrubRun] at h1
    | assertFail => rw [e₂] at h1; simp [scrubRun] at h1
    | noFuel => rfl

/-! ### Evaluation lemmas -/

theorem clip01_nonneg (x : ℚ) : 0 ≤ clip01 x :=
  le_min (le_max_right x 0) zero_le_one

theorem clip01_le_one (x : ℚ) : clip01 x ≤ 1 := min_le_right _ _

theorem evaluate_PQS_def (rows : List SummaryRow) :
    (evaluate_picklists rows).PQS =
      0.4 * clip01 ((evaluate_picklists rows).avg_unit_util / 100) +
      0.3 * clip01 ((evaluate_picklists rows).avg_weight_util / 100) +
      0.2 * clip01 ((evaluate_picklists rows).avg_orders / 20) +
      0.1 * (1 - (evaluate_picklists rows).violation_rate / 100) := rfl

theorem eval_rate_bounds (rows : List SummaryRow) (h : rows ≠ []) :
    0 ≤ (evaluate_picklists rows).violation_rate ∧
    (evaluate_picklists rows).violation_rate ≤ 100 := by
  unfold evaluate_picklists
  simp only []
  set rows' := if ratMean (rows.map SummaryRow.total_weight) > 1000 then
      rows.map (fun r => { r with total_weight := r.total_weight / 1000 })
    else rows with hrows'
  have hlen : rows'.length = rows.length := by
    rw [hrows']
    split <;> simp
  have hpos : 0 < rows'.length := by
    rw [hlen]
    exact List.length_pos.mpr h
  rw [if_pos hpos]
  have hn : (0 : ℚ) < (rows'.length : ℚ) := by exact_mod_cast hpos
  constructor
  · positivity
  · have hv : (((rows'.filter (fun r => unit_violation r || weight_violation r)).length : ℚ) /
        (rows'.length : ℚ)) ≤ 1 := by
      rw [div_le_one hn]
      exact_mod_cast List.length_filter_le _ _
    calc ((rows'.filter (fun r => unit_violation r || weight_violation r)).length : ℚ) /
          (rows'.length : ℚ) * 100 ≤ 1 * 100 := by
            apply mul_le_mul_of_nonneg_right hv
            norm_num
      _ = 100 := one_mul 100

theorem eval_PQS_bounds (rows : List SummaryRow) (h : rows ≠ []) :
    0 ≤ (evaluate_picklists rows).PQS ∧ (evaluate_picklists rows).PQS ≤ 1 := by
  obtain ⟨hr0, hr100⟩ := eval_rate_bounds rows h
  rw [evaluate_PQS_def rows]
  have ha0 := clip01_nonneg ((evaluate_picklists rows).avg_unit_util / 100)
  have ha1 := clip01_le_one ((evaluate_picklists rows).avg_unit_util / 100)
  have hb0 := clip01_nonneg ((evaluate_picklists rows).avg_weight_util / 100)
  have hb1 := clip01_le_one ((evaluate_picklists rows).avg_weight_util / 100)
  have hc0 := clip01_nonneg ((evaluate_picklists rows).avg_orders / 20)
  have hc1 := clip01_le_one ((evaluate_picklists rows).avg_orders / 20)
  have hd0 : 0 ≤ 1 - (evaluate_picklists rows).violation_rate / 100 := by linarith
  have hd1 : 1 - (evaluate_picklists rows).violation_rate / 100 ≤ 1 := by linarith
  have h04 : (0.4 : ℚ) = 2 / 5 := by norm_num
  have h03 : (0.3 : ℚ) = 3 / 10 := by norm_num
  have h02 : (0.2 : ℚ) = 1 / 5 := by norm_num
  have h01 : (0.1 : ℚ) = 1 / 10 := by norm_num
  rw [h04, h03, h02, h01]
  constructor <;> nlinarith

/-! ### Claims -/

/-- C1: for every Picklist emitted by the packer (every summary row
produced by `process_zone`), `total_units` is at most
`UNIT_CAP = 2000`, and `total_weight` is at most the weight cap of its
type (50.0 kg if the picklist is fragile, 200.0 kg otherwise) plus an
absolute tolerance of 1e-6. -/
theorem C1_capacity_invariant (today : String) (fuel : Nat) (df : List ItemLine)
    (files : List (String × List PickLine)) (summary : List SummaryRow)
    (h : generate_picklists today fuel df = .ok files summary) :
    ∀ r ∈ summary, r.total_units ≤ PICKLIST_UNIT_CAP ∧
      r.total_weight ≤
        (if r.picklist_type = "fragile" then FRAGILE_WEIGHT_CAP else PICKLIST_WEIGHT_CAP)
          + TOL :=
  fun r hr => (generate_inv h).rows_ok r hr

/-- C2: on an item whose unit weight (60 kg) exceeds its group's weight
cap (fragile, 50 kg), the packer neither raises any error nor
terminates: the per-item while loop runs forever (it exhausts every
fuel bound), because flushing a fresh empty bin is a no-op.  The code
has no "unpackable item" error at all, contradicting the claim. -/
theorem C2_unpackable_item_loops (today zone : String) :
    ∀ fuel : Nat, packRowLoop today zone true item60 fuel item60.qty freshState = .noFuel :=
  fun fuel => item60_loop fuel freshState rfl rfl rfl

/-- C3 counterexample: `generate_picklists` does not terminate on every
input — on a single fragile item of unit weight 60 kg the whole run
exhausts every fuel bound instead of completing or failing fast. -/
theorem C3_hang_counterexample : RunHangs "2025-01-01" [item60] :=
  generate_item60_noFuel

/-- C3 amended: under the precondition that every item with positive
quantity and positive unit weight has unit weight at most its group's
weight cap, `generate_picklists` completes normally (with the explicit
fuel bound `fuelBound df`, i.e. the per-item while loop terminates and
the capacity assert never fires). -/
theorem C3_terminates_under_precondition (today : String) (df : List ItemLine)
    (hpre : ∀ r ∈ df, 0 < r.qty → 0 < r.weight → r.weight ≤ capW r.fragile) :
    IsOk (generate_picklists today (fuelBound df) df) :=
  generate_term hpre

/-- C4: conservation of quantity — when the per-item loop terminates on
a row, the pick lines derived from that row (the suffix added to the
output) carry the row's identity fields and their `qty` fields sum to
the row's original quantity exactly. -/
theorem C4_conservation (today zone : String) (fr : Bool) (row : ItemLine) (fuel : Nat)
    (s s' : ZoneState) (h : packRowLoop today zone fr row fuel row.qty s = .ok s')
    (hq : 0 ≤ row.qty) :
    allLines s' = allLines s ++ (allLines s').drop (allLines s).length ∧
    (∀ l ∈ (allLines s').drop (allLines s).length,
      l.sku = row.sku ∧ l.order_id = row.order_id ∧ l.store = row.store_id ∧
      l.bin = row.bin ∧ l.unit_weight = row.weight ∧ 0 < l.qty) ∧
    linesUnits ((allLines s').drop (allLines s).length) = row.qty := by
  obtain ⟨d, h1, h2, h3⟩ := packRowLoop_conserve fuel row.qty s s' h
  have hd : (allLines s').drop (allLines s).length = d := by
    rw [h1]
    exact List.drop_left _ _
  rw [hd]
  exact ⟨h1, h2, by rw [h3, max_eq_left hq]⟩

/-- C5: the records are sorted by the composite key (cutoff ascending,
priority ascending, order_id ascending), the sorted sequence is a
permutation of the input, and the sort is stable: any pair equal on the
full composite key keeps its input order. -/
theorem C5_sort_stable (l : List ItemLine) :
    (sortRecords l).Sorted KeyLE ∧ List.Perm (sortRecords l) l ∧
    ∀ a b : ItemLine, keyOf a = keyOf b → List.Sublist [a, b] l → List.Sublist [a, b] (sortRecords l) := by
  refine ⟨?_, ?_, ?_⟩
  · exact (List.sorted_insertionSort LeKey l).imp (fun h => leKey_iff.mp h)
  · exact List.perm_insertionSort LeKey l
  · intro a b hk hab
    exact List.pair_sublist_insertionSort (LeKey_of_keyOf_eq hk) hab

/-- C6 amended: two runs on identical input produce identical picklist
line contents, sequence numbers and summary rows except for the
`picklist_file` field, which embeds the run's current date; the outputs
agree exactly when the two runs happen on the same date. -/
theorem C6_determinism_modulo_filenames (d₁ d₂ : String) (fuel : Nat) (df : List ItemLine) :
    scrubRun (generate_picklists d₁ fuel df) = scrubRun (generate_picklists d₂ fuel df) :=
  scrubRun_generate d₁ d₂ fuel df

/-- C7: non-emptiness — every emitted picklist file holds at least one
pick line, and every pick line in it has positive quantity. -/
theorem C7_nonempty (today : String) (fuel : Nat) (df : List ItemLine)
    (files : List (String × List PickLine)) (summary : List SummaryRow)
    (h : generate_picklists today fuel df = .ok files summary) :
    (∀ f ∈ files, f.2 ≠ []) ∧ (∀ f ∈ files, ∀ l ∈ f.2, 0 < l.qty) :=
  ⟨fun f hf => ((generate_inv h).files_ok f hf).1,
   fun f hf => ((generate_inv h).files_ok f hf).2⟩

/-- C8: the composite quality score equals
`0.4·clip(avg_unit_util/100) + 0.3·clip(avg_weight_util/100) +
0.2·clip(avg_orders_per_picklist/20) + 0.1·(1 − violation_rate/100)`,
and for every non-empty summary the resulting PQS lies in `[0, 1]`. -/
theorem C8_quality_score (rows : List SummaryRow) (h : rows ≠ []) :
    (evaluate_picklists rows).PQS =
      0.4 * clip01 ((evaluate_picklists rows).avg_unit_util / 100) +
      0.3 * clip01 ((evaluate_picklists rows).avg_weight_util / 100) +
      0.2 * clip01 ((evaluate_picklists rows).avg_orders / 20) +
      0.1 * (1 - (evaluate_picklists rows).violation_rate / 100) ∧
    0 ≤ (evaluate_picklists rows).PQS ∧ (evaluate_picklists rows).PQS ≤ 1 :=
  ⟨evaluate_PQS_def rows, eval_PQS_bounds rows h⟩

/-- C9: an ItemLine with quantity 0 is a no-op — the per-item loop
returns the state unchanged (same open bin, same accumulators, no
flush), producing no PickLine. -/
theorem C9_zero_qty_noop (today zone : String) (fr : Bool) (row : ItemLine) (fuel : Nat)
    (s : ZoneState) (h : row.qty = 0) :
    packRowLoop today zone fr row fuel row.qty s = .ok s := by
  rw [h]
  exact packRowLoop_of_nonpos today zone fr row fuel 0 s (lt_irrefl 0)

/-- C10: every emitted summary row is consistent with the pick lines of
its picklist file: `total_units` is the sum of `qty`, `total_weight`
the sum of `qty · unit_weight`, `distinct_orders` the number of
distinct order ids and `distinct_bins` the number of distinct bins. -/
theorem C10_summary_consistency (today : String) (fuel : Nat) (df : List ItemLine)
    (files : List (String × List PickLine)) (summary : List SummaryRow)
    (h : generate_picklists today fuel df = .ok files summary) :
    List.Forall₂ Consistent summary (files.map Prod.snd) :=
  (generate_inv h).rows_files

/-! ### Witnesses and counterexamples on concrete inputs -/

section ConcreteEvaluation

attribute [local semireducible] Rat.add Rat.sub Rat.mul Rat.inv Rat.ofScientific

/-- Witness for C1 at the concrete two-item run. -/
theorem C1_capacity_invariant_witness :
    runRow.total_units ≤ PICKLIST_UNIT_CAP ∧
      runRow.total_weight ≤
        (if runRow.picklist_type = "fragile" then FRAGILE_WEIGHT_CAP else PICKLIST_WEIGHT_CAP)
          + TOL :=
  C1_capacity_invariant "2025-10-12" 8 [itemA, itemB] runFiles runSummary
    (by decide) runRow (by decide)

/-- Witness for the amended C3 on a concrete packable input. -/
theorem C3_terminates_witness :
    IsOk (generate_picklists "2025-10-12" (fuelBound [itemA, itemB]) [itemA, itemB]) :=
  C3_terminates_under_precondition "2025-10-12" [itemA, itemB] (by decide)

/-- Witness for C4: packing `itemA` alone from the fresh state. -/
theorem C4_conservation_witness :
    allLines stateA = allLines freshState ++
      (allLines stateA).drop (allLines freshState).length ∧
    linesUnits ((allLines stateA).drop (allLines freshState).length) = itemA.qty :=
  ⟨(C4_conservation "2025-10-12" "A" false itemA 5 freshState stateA
      (by decide) (by decide)).1,
   (C4_conservation "2025-10-12" "A" false itemA 5 freshState stateA
      (by decide) (by decide)).2.2⟩

/-- Witness for C5 stability: two records with equal composite keys keep
their input order through the sort. -/
theorem C5_sort_stable_witness : List.Sublist [twinA, twinB] (sortRecords [twinA, twinB]) :=
  (C5_sort_stable [twinA, twinB]).2.2 twinA twinB (by decide) (List.Sublist.refl _)

/-- Counterexample for C6 as stated: the same input run on two different
dates yields different outputs (the `picklist_file` fields differ). -/
theorem C6_date_dependence_counterexample :
    generate_picklists "2025-01-01" 8 [itemA] ≠ generate_picklists "2025-01-02" 8 [itemA] := by
  decide

/-- Witness for C7 at the concrete two-item run. -/
theorem C7_nonempty_witness : runFile.2 ≠ [] ∧ 0 < (mkLine itemA 2).qty :=
  ⟨(C7_nonempty "2025-10-12" 8 [itemA, itemB] runFiles runSummary (by decide)).1
      runFile (by decide),
   (C7_nonempty "2025-10-12" 8 [itemA, itemB] runFiles runSummary (by decide)).2
      runFile (by decide) (mkLine itemA 2) (by decide)⟩

/-- Witness for C8 on a concrete one-row summary. -/
theorem C8_quality_score_witness :
    0 ≤ (evaluate_picklists [sampleRow]).PQS ∧ (evaluate_picklists [sampleRow]).PQS ≤ 1 :=
  (C8_quality_score [sampleRow] (by decide)).2

/-- Witness for C9 on a concrete zero-quantity item. -/
theorem C9_zero_qty_noop_witness :
    packRowLoop "2025-10-12" "A" false item0 5 item0.qty freshState = .ok freshState :=
  C9_zero_qty_noop "2025-10-12" "A" false item0 5 freshState (by decide)

/-- Witness for C10 at the concrete two-item run. -/
theorem C10_summary_consistency_witness :
    List.Forall₂ Consistent runSummary (runFiles.map Prod.snd) :=
  C10_summary_consistency "2025-10-12" 8 [itemA, itemB] runFiles runSummary (by decide)

end ConcreteEvaluation

end Swiggy
